import Mathlib

/-!
Verification development for the freedom-skiptracer repository.

The definitions below are a shallow embedding of the proxy-rotation
controller, the parallel proxy manager, the worker/first-success logic,
the phone-number normalization helpers of src/skiptracer.py, and the
hold-duration predictor of src/human_behavior_ml.py.

Modelling conventions:
* Python floats (timestamps, durations, ratios, scale factors) are
  modelled as rationals; all comparisons involved are exact.
* The wall clock (time.time()) is passed explicitly as a parameter now.
* Python dicts keyed by proxy strings are modelled as association lists.
* Python sets of strings are modelled as duplicate-free lists.
* random.random() outcomes are passed explicitly as Bool parameters.
* The while-True loop in ParallelProxyManager._next_from_pool is given
  explicit fuel; a result of none means the loop has not returned within
  the given number of iterations (for every fuel value: it diverges).
-/

/-- Runtime statistics for a single proxy (dataclass ProxyStats,
skiptracer.py lines 211-221). -/
structure ProxyStats where
  success : Nat := 0
  failure : Nat := 0
  blocks : Nat := 0
  times : List ℚ := []
  cooldown_until : ℚ := 0
  fail_streak : Nat := 0
deriving Repr, DecidableEq

/-- dict.get on the stats dictionary (first binding wins, matching a
Python dict built by comprehension). -/
def statsGet (stats : List (String × ProxyStats)) (p : String) : Option ProxyStats :=
  match stats with
  | [] => none
  | (q, st) :: rest => if q = p then some st else statsGet rest p

/-- In-place mutation of the ProxyStats object found by dict.get,
modelled as updating the first binding of the key. -/
def statsSet (stats : List (String × ProxyStats)) (p : String)
    (f : ProxyStats → ProxyStats) : List (String × ProxyStats) :=
  match stats with
  | [] => []
  | (q, st) :: rest => if q = p then (q, f st) :: rest else (q, st) :: statsSet rest p f

/-- INITIAL_MOBILE_RATIO = 0.3 (skiptracer.py line 136). -/
def initialMobileRatio : ℚ := 3 / 10

/-- State of ParallelProxyManager (skiptracer.py lines 223-234).
The lock is not modelled: every method below is one atomic transition,
exactly the critical section it guards. -/
structure ParallelProxyManager where
  residential : List String
  mobile : List String
  res_index : Nat
  mob_index : Nat
  mobile_ratio : ℚ
  in_use : List String
  stats : List (String × ProxyStats)
deriving Repr, DecidableEq

/-- ParallelProxyManager.__init__. -/
def ParallelProxyManager.init (residential mobile : List String) : ParallelProxyManager :=
  { residential := residential
  , mobile := mobile
  , res_index := 0
  , mob_index := 0
  , mobile_ratio := initialMobileRatio
  , in_use := []
  , stats := (residential ++ mobile).map (fun p => (p, {})) }

/-- The availability test of the loop body in _next_from_pool:
proxy not in self.in_use and stat and stat.cooldown_until <= time.time(). -/
def availB (stats : List (String × ProxyStats)) (now : ℚ) (inUse : List String)
    (proxy : String) : Bool :=
  !(inUse.contains proxy) &&
    (match statsGet stats proxy with
     | some st => decide (st.cooldown_until ≤ now)
     | none => false)

/-- Body of the while-True loop of _next_from_pool (skiptracer.py lines
240-254), with fuel counting loop iterations.  The outer Option is none
when the fuel is exhausted; the inner triple is (proxy-or-none, advanced
index, updated in_use set). -/
def nextFromPoolAux (stats : List (String × ProxyStats)) (now : ℚ) (pool : List String)
    (inUse : List String) (start : Nat) :
    Nat → Nat → Option (Option String × Nat × List String)
  | 0, _ => none
  | fuel + 1, idx0 =>
    let idx1 := if pool.length ≤ idx0 then 0 else idx0
    let proxy := pool.getD idx1 ""
    let idx2 := idx1 + 1
    if availB stats now inUse proxy then some (some proxy, idx2, proxy :: inUse)
    else if idx2 = start then some (none, idx2, inUse)
    else nextFromPoolAux stats now pool inUse start fuel idx2

/-- ParallelProxyManager._next_from_pool (skiptracer.py lines 236-254). -/
def nextFromPool (stats : List (String × ProxyStats)) (now : ℚ) (pool : List String)
    (inUse : List String) (idx : Nat) (fuel : Nat) :
    Option (Option String × Nat × List String) :=
  if pool.isEmpty then some (none, idx, inUse)
  else nextFromPoolAux stats now pool inUse idx fuel idx

/-- Python truthiness of the proxy value: None and the empty string are
falsy (the code tests if not proxy). -/
def pTruthy : Option String → Bool
  | none => false
  | some s => !s.isEmpty

/-- ParallelProxyManager.allocate (skiptracer.py lines 256-273).
use_mobile abstracts random.random() < self.mobile_ratio.  The outer
Option is none when one of the _next_from_pool calls diverges within the
given fuel. -/
def ParallelProxyManager.allocate (m : ParallelProxyManager) (use_mobile : Bool)
    (now : ℚ) (fuel : Nat) : Option (Option String × String × ParallelProxyManager) :=
  let s1 : Option (Option String × String × ParallelProxyManager) :=
    if use_mobile then
      match nextFromPool m.stats now m.mobile m.in_use m.mob_index fuel with
      | none => none
      | some (proxy, idx, inuse) =>
          some (proxy, "mobile", { m with mob_index := idx, in_use := inuse })
    else some (none, "", m)
  match s1 with
  | none => none
  | some (proxy1, t1, m1) =>
    if pTruthy proxy1 then some (proxy1, t1, m1)
    else
      match nextFromPool m1.stats now m1.residential m1.in_use m1.res_index fuel with
      | none => none
      | some (proxy2, idx, inuse) =>
        let m2 := { m1 with res_index := idx, in_use := inuse }
        if pTruthy proxy2 then some (proxy2, "residential", m2)
        else if use_mobile then some (proxy2, "residential", m2)
        else
          match nextFromPool m2.stats now m2.mobile m2.in_use m2.mob_index fuel with
          | none => none
          | some (proxy3, idx3, inuse3) =>
              some (proxy3, "mobile", { m2 with mob_index := idx3, in_use := inuse3 })

/-- ParallelProxyManager.release (skiptracer.py lines 275-307). -/
def ParallelProxyManager.release (m : ParallelProxyManager) (proxy : String)
    (ptype : String) (success blocked : Bool) (duration now : ℚ) : ParallelProxyManager :=
  let inUse := if m.in_use.contains proxy then m.in_use.erase proxy else m.in_use
  let stats :=
    match statsGet m.stats proxy with
    | none => m.stats
    | some st =>
      let st1 := { st with times := st.times ++ [duration] }
      let st2 :=
        if success then { st1 with success := st1.success + 1, fail_streak := 0 }
        else { st1 with failure := st1.failure + 1, fail_streak := st1.fail_streak + 1 }
      let st3 :=
        if blocked then { st2 with blocks := st2.blocks + 1, fail_streak := st2.fail_streak + 1 }
        else st2
      let st4 :=
        if 3 ≤ st3.fail_streak then { st3 with cooldown_until := now + 120, fail_streak := 0 }
        else st3
      statsSet m.stats proxy (fun _ => st4)
  let ratio :=
    if ptype = "residential" ∧ success = false then min (7 / 10 : ℚ) (m.mobile_ratio + 5 / 100)
    else if ptype = "residential" ∧ success = true then
      max initialMobileRatio (m.mobile_ratio - 2 / 100)
    else m.mobile_ratio
  { m with in_use := inUse, stats := stats, mobile_ratio := ratio }

/-- State of ProxyRotator (skiptracer.py lines 326-338). -/
structure ProxyRotator where
  residential : List String
  mobile : List String
  res_index : Nat
  mob_index : Nat
  mode : String
  failures : Nat
  success : Nat
  last_mobile : ℚ
  stats : List (String × ProxyStats)
deriving Repr, DecidableEq

/-- ProxyRotator.__init__. -/
def ProxyRotator.init (residential mobile : List String) : ProxyRotator :=
  { residential := residential
  , mobile := mobile
  , res_index := 0
  , mob_index := 0
  , mode := "residential"
  , failures := 0
  , success := 0
  , last_mobile := 0
  , stats := (residential ++ mobile).map (fun p => (p, {})) }

/-- Python list indexing l[i]: negative indices count from the end;
out-of-range access raises (none). -/
def pyIndex (l : List α) (i : Int) : Option α :=
  let j := if i < 0 then i + l.length else i
  if 0 ≤ j ∧ j < l.length then l.get? j.toNat else none

/-- Initial value of the module-level HUMANIZATION_SCALE
(skiptracer.py line 98). -/
def humanizationScaleInit : ℚ := 1

/-- Result of one ProxyRotator method call: the updated rotator, the
updated global HUMANIZATION_SCALE, and whether an IndexError escaped
(raised = true means the proxy indexing expression raised; every state
mutation performed before that point is kept). -/
structure RotatorStep where
  rot : ProxyRotator
  scale : ℚ
  raised : Bool
deriving Repr, DecidableEq

/-- ProxyRotator.record_failure (skiptracer.py lines 362-384); reason is
only logged and is not modelled. -/
def ProxyRotator.record_failure (r : ProxyRotator) (scale now : ℚ) : RotatorStep :=
  let failures := r.failures + 1
  let scale := min 2 (scale + 1 / 10)
  let pool := if r.mode = "residential" then r.residential else r.mobile
  let pidx : Int :=
    (if r.mode = "residential" then (r.res_index : Int) else (r.mob_index : Int)) - 1
  match pyIndex pool pidx with
  | none => { rot := { r with failures := failures }, scale := scale, raised := true }
  | some proxy =>
    let stats :=
      match statsGet r.stats proxy with
      | none => r.stats
      | some _ => statsSet r.stats proxy (fun st => { st with failure := st.failure + 1 })
    let r1 := { r with failures := failures, stats := stats }
    if r1.mode = "residential" ∧ 2 ≤ failures then
      { rot := { r1 with mode := "mobile", last_mobile := now, failures := 0 }
      , scale := scale, raised := false }
    else
      { rot := r1, scale := scale, raised := false }

/-- ProxyRotator.record_success (skiptracer.py lines 386-404).  Note
that the proxy whose stat is updated is selected with the mode value
after the possible switch back to residential. -/
def ProxyRotator.record_success (r : ProxyRotator) (scale now : ℚ) : RotatorStep :=
  let r1 := { r with success := r.success + 1, failures := 0 }
  let scale := max 1 (scale - 5 / 100)
  let r2 :=
    if r1.mode = "mobile" ∧ 300 < now - r1.last_mobile then { r1 with mode := "residential" }
    else r1
  let pool := if r2.mode = "residential" then r2.residential else r2.mobile
  let pidx : Int :=
    (if r2.mode = "residential" then (r2.res_index : Int) else (r2.mob_index : Int)) - 1
  match pyIndex pool pidx with
  | none => { rot := r2, scale := scale, raised := true }
  | some proxy =>
    let stats :=
      match statsGet r2.stats proxy with
      | none => r2.stats
      | some _ => statsSet r2.stats proxy (fun st => { st with success := st.success + 1 })
    { rot := { r2 with stats := stats }, scale := scale, raised := false }

/-- predict_hold_duration (human_behavior_ml.py lines 33-48).  The model
argument abstracts the loaded RL model: none is a missing model, some
(Except.error _) a model whose predict call raises, and some (Except.ok v)
a prediction that yields the float v. -/
def predict_hold_duration (model : Option (Except Unit ℚ)) (default : ℚ) : ℚ :=
  match model with
  | none => default
  | some (Except.error _) => default
  | some (Except.ok duration) => max 3 (min 6 duration)

/-- Character class [-.\s] of PHONE_RE, at the ASCII level (the separator
characters Python \s can match in these phone patterns). -/
def isSepChar (c : Char) : Bool :=
  c = '-' || c = '.' || c = ' ' || c = '\t' || c = '\n' || c = '\r' ||
    c = '\x0b' || c = '\x0c'

/-- Greedy match of an optional single-character class X? : the branches
in the order a backtracking regex engine tries them (consume first). -/
def matchOpt (p : Char → Bool) (cs : List Char) : List (List Char × List Char) :=
  match cs with
  | [] => [([], [])]
  | c :: rest => if p c then [([c], rest), ([], cs)] else [([], cs)]

/-- Match of \d{n} : exactly n leading decimal digits. -/
def takeDigits : Nat → List Char → Option (List Char × List Char)
  | 0, cs => some ([], cs)
  | _ + 1, [] => none
  | n + 1, c :: rest =>
    if c.isDigit then
      match takeDigits n rest with
      | none => none
      | some (d, r) => some (c :: d, r)
    else none

/-- All anchored matches of
PHONE_RE = \(?\d{3}\)?[-.\s]?\d{3}[-.\s]?\d{4} (skiptracer.py line 47)
at the head of cs, as (matched, rest) pairs in backtracking order. -/
def phoneCands (cs : List Char) : List (List Char × List Char) :=
  (matchOpt (fun c => c = '(') cs).flatMap fun (o1, r1) =>
    match takeDigits 3 r1 with
    | none => []
    | some (d1, r2) =>
      (matchOpt (fun c => c = ')') r2).flatMap fun (o2, r3) =>
        (matchOpt isSepChar r3).flatMap fun (o3, r4) =>
          match takeDigits 3 r4 with
          | none => []
          | some (d2, r5) =>
            (matchOpt isSepChar r5).flatMap fun (o4, r6) =>
              match takeDigits 4 r6 with
              | none => []
              | some (d3, r7) => [(o1 ++ d1 ++ o2 ++ o3 ++ d2 ++ o4 ++ d3, r7)]

/-- The anchored match Python's engine commits to: the first candidate in
backtracking order. -/
def matchPhone (cs : List Char) : Option (List Char × List Char) :=
  (phoneCands cs).head?

theorem matchOpt_spec {p : Char → Bool} {cs o r} (h : (o, r) ∈ matchOpt p cs) :
    cs = o ++ r := by
  cases cs with
  | nil => simp [matchOpt] at h; simp [h.1, h.2]
  | cons c rest =>
    by_cases hp : p c <;> simp [matchOpt, hp] at h
    · rcases h with ⟨h1, h2⟩ | ⟨h1, h2⟩ <;> simp [h1, h2]
    · simp [h.1, h.2]

theorem takeDigits_spec : ∀ {n : Nat} {cs d r : List Char},
    takeDigits n cs = some (d, r) → cs = d ++ r ∧ d.length = n
  | 0, cs, d, r, h => by
    simp only [takeDigits, Option.some.injEq, Prod.mk.injEq] at h
    obtain ⟨h1, h2⟩ := h
    subst h1; subst h2; simp
  | _ + 1, [], _, _, h => by simp [takeDigits] at h
  | n + 1, c :: rest, d, r, h => by
    by_cases hc : c.isDigit
    · rw [takeDigits, if_pos hc] at h
      rcases hrec : takeDigits n rest with _ | ⟨d0, r0⟩ <;> rw [hrec] at h
      · simp at h
      · have ih := takeDigits_spec hrec
        simp only [Option.some.injEq, Prod.mk.injEq] at h
        obtain ⟨h1, h2⟩ := h
        subst h1; subst h2
        refine ⟨by simp [ih.1], by simp [ih.2]⟩
    · rw [takeDigits, if_neg hc] at h
      simp at h

theorem phoneCands_spec {cs m r : List Char} (h : (m, r) ∈ phoneCands cs) :
    cs = m ++ r ∧ 10 ≤ m.length := by
  rw [phoneCands, List.mem_flatMap] at h
  obtain ⟨⟨o1, r1⟩, ho1, h⟩ := h
  dsimp only at h
  rcases h1 : takeDigits 3 r1 with _ | ⟨d1, r2⟩ <;> rw [h1] at h
  · simp at h
  rw [List.mem_flatMap] at h
  obtain ⟨⟨o2, r3⟩, ho2, h⟩ := h
  dsimp only at h
  rw [List.mem_flatMap] at h
  obtain ⟨⟨o3, r4⟩, ho3, h⟩ := h
  dsimp only at h
  rcases h2 : takeDigits 3 r4 with _ | ⟨d2, r5⟩ <;> rw [h2] at h
  · simp at h
  rw [List.mem_flatMap] at h
  obtain ⟨⟨o4, r6⟩, ho4, h⟩ := h
  dsimp only at h
  rcases h3 : takeDigits 4 r6 with _ | ⟨d3, r7⟩ <;> rw [h3] at h
  · simp at h
  simp only [List.mem_singleton, Prod.mk.injEq] at h
  obtain ⟨hm, hr⟩ := h
  have e1 := matchOpt_spec ho1
  have e2 := takeDigits_spec h1
  have e3 := matchOpt_spec ho2
  have e4 := matchOpt_spec ho3
  have e5 := takeDigits_spec h2
  have e6 := matchOpt_spec ho4
  have e7 := takeDigits_spec h3
  subst hm; subst hr
  constructor
  · rw [e1, e2.1, e3, e4, e5.1, e6, e7.1]
    simp [List.append_assoc]
  · simp [e2.2, e5.2, e7.2]
    omega

theorem matchPhone_spec {cs m r : List Char} (h : matchPhone cs = some (m, r)) :
    cs = m ++ r ∧ 10 ≤ m.length :=
  phoneCands_spec (List.mem_of_mem_head? (by rw [matchPhone] at h; exact h))

theorem matchPhone_rest_lt {cs m r : List Char} (h : matchPhone cs = some (m, r)) :
    r.length < cs.length := by
  obtain ⟨he, hl⟩ := matchPhone_spec h
  rw [he]
  simp only [List.length_append]
  omega

/-- PHONE_RE.findall: scan left to right, commit to the leftmost match,
continue after it (matches are non-overlapping and never empty).  The
scan is written with explicit fuel so that it is structurally recursive
and evaluates inside the kernel; every iteration consumes at least one
character, so fuel equal to the length of the text is always enough
(findallAux_fuel below). -/
def findallAux : Nat → List Char → List (List Char)
  | 0, _ => []
  | _ + 1, [] => []
  | fuel + 1, c :: rest =>
    match matchPhone (c :: rest) with
    | some mr => mr.1 :: findallAux fuel mr.2
    | none => findallAux fuel rest

def findallChars (cs : List Char) : List (List Char) :=
  findallAux cs.length cs

theorem findallAux_nil : ∀ fuel : Nat, findallAux fuel [] = []
  | 0 => rfl
  | _ + 1 => rfl

/-- The fuel is irrelevant as soon as it covers the length of the text:
the scan never runs out of fuel before it runs out of characters. -/
theorem findallAux_fuel : ∀ (fuel1 fuel2 : Nat) (cs : List Char),
    cs.length ≤ fuel1 → cs.length ≤ fuel2 →
    findallAux fuel1 cs = findallAux fuel2 cs
  | 0, fuel2, cs, h1, _ => by
    have : cs = [] := List.eq_nil_of_length_eq_zero (by omega)
    subst this
    rw [findallAux_nil, findallAux_nil]
  | _ + 1, 0, cs, _, h2 => by
    have : cs = [] := List.eq_nil_of_length_eq_zero (by omega)
    subst this
    rw [findallAux_nil, findallAux_nil]
  | n + 1, m + 1, [], _, _ => rfl
  | n + 1, m + 1, c :: rest, h1, h2 => by
    rw [findallAux, findallAux]
    cases hm : matchPhone (c :: rest) with
    | none =>
      exact findallAux_fuel n m rest (by simp at h1; omega) (by simp at h2; omega)
    | some mr =>
      have hlt := matchPhone_rest_lt (m := mr.1) (r := mr.2) (by rw [hm])
      simp only [List.length_cons] at h1 h2 hlt
      dsimp only
      rw [findallAux_fuel n m mr.2 (by omega) (by omega)]

/-- _normalize_phone on the character list level (skiptracer.py lines
434-438): strip non-digits; if exactly 10 digits remain, rebuild the
canonical +1 (AAA) BBB-CCCC form, else return the input unchanged. -/
def normalizeChars (cs : List Char) : List Char :=
  let digits := cs.filter Char.isDigit
  if digits.length = 10 then
    ['+', '1', ' ', '('] ++ digits.take 3 ++ [')', ' '] ++
      (digits.drop 3).take 3 ++ ['-'] ++ digits.drop 6
  else cs

/-- _normalize_phone (skiptracer.py lines 434-438). -/
def normalize_phone (s : String) : String :=
  String.mk (normalizeChars s.data)

/-- PHONE_RE.findall over a string. -/
def phoneFindall (s : String) : List String :=
  (findallChars s.data).map String.mk

/-- Loop body of _parse_phones: phones.add(_normalize_phone(match)),
with the Python set modelled as a duplicate-free list in first-insertion
order (the claims checked below do not depend on the iteration order of
the set). -/
def addPhone (phones : List String) (mtch : String) : List String :=
  let p := normalize_phone mtch
  if p ∈ phones then phones else phones ++ [p]

/-- _parse_phones (skiptracer.py lines 440-444): collect the normalized
forms of all PHONE_RE matches into a set and return it as a list. -/
def parse_phones (text : String) : List String :=
  (phoneFindall text).foldl addPhone []

/-- Program counter of one worker thread in _worker (skiptracer.py lines
1303-1345), at the granularity of its accesses to the shared state. -/
inductive WPC where
  /-- About to evaluate while not stop.is_set(). -/
  | checking
  /-- The search attempt finished with the given outcome; about to act
  on it (success: Bool of not bot_block, res: results of the attempt). -/
  | got (success : Bool) (res : List Nat)
  /-- Performed results.extend(res); about to perform stop.set(). -/
  | extended
  /-- Returned. -/
  | done
deriving Repr, DecidableEq

/-- One worker: the attempts it would perform on successive loop
iterations (empty script = manager.allocate returns no proxy, worker
returns), plus its program counter. -/
structure WorkerSt where
  script : List (Bool × List Nat)
  pc : WPC
deriving Repr, DecidableEq

/-- Shared state of run_parallel: the results list and the stop event. -/
structure Shared where
  results : List Nat
  stop : Bool
deriving Repr, DecidableEq

/-- One shared-memory step of a worker.  checking: the stop.is_set()
test, then (atomically with respect to the shared state, since the
search touches nothing shared) the whole allocate/search attempt;
got true res: results.extend(res); extended: stop.set();
got false res: release and loop back to the stop check. -/
def stepWorker (s : Shared) (w : WorkerSt) : Shared × WorkerSt :=
  match w.pc with
  | WPC.checking =>
    if s.stop then (s, { w with pc := WPC.done })
    else
      match w.script with
      | [] => (s, { w with pc := WPC.done })
      | (b, res) :: rest => (s, { script := rest, pc := WPC.got b res })
  | WPC.got b res =>
    if b then ({ s with results := s.results ++ res }, { w with pc := WPC.extended })
    else (s, { w with pc := WPC.checking })
  | WPC.extended => ({ s with stop := true }, { w with pc := WPC.done })
  | WPC.done => (s, w)

/-- Run the workers under an explicit interleaving: each schedule entry
names the worker that performs its next step. -/
def runSched : List WorkerSt → Shared → List Nat → Shared × List WorkerSt
  | ws, s, [] => (s, ws)
  | ws, s, i :: rest =>
    match ws.get? i with
    | none => runSched ws s rest
    | some w =>
      let sw := stepWorker s w
      runSched (ws.set i sw.2) sw.1 rest

/-- run_parallel (skiptracer.py lines 1348-1367): spawn one worker per
script, all starting at the stop check, with empty results and the stop
event clear, and let them interleave according to sched.  The first
component of the result is the final shared state whose results list
run_parallel returns. -/
def runParallelModel (scripts : List (List (Bool × List Nat))) (sched : List Nat) :
    Shared × List WorkerSt :=
  runSched (scripts.map (fun sc => { script := sc, pc := WPC.checking }))
    { results := [], stop := false } sched

theorem nextFromPoolAux_stuck (fuel : Nat) :
    nextFromPoolAux [("p", {})] 0 ["p"] ["p"] 0 fuel 1 = none := by
  induction fuel with
  | zero => rfl
  | succ n ih => simpa [nextFromPoolAux, availB, statsGet] using ih

/-- Claim C2: the claim states that _next_from_pool terminates for every
pool and starting index after one linear pass.  The code violates this:
with starting index 0 (the initial value of res_index and mob_index) and
a non-empty pool in which no proxy is available, the loop's cycle test
idx == start can never fire, because idx has already been incremented
past 0 and is reset to 0 only before, never after, an element is
processed — so the while-True loop never returns.  Formally: for every
amount of fuel, the loop embedding has not returned. -/
theorem nextFromPool_start_zero_diverges :
    ∀ fuel : Nat, nextFromPool [("p", {})] 0 ["p"] ["p"] 0 fuel = none := by
  intro fuel
  cases fuel with
  | zero => rfl
  | succ n =>
    have h1 : nextFromPool [("p", {})] 0 ["p"] ["p"] 0 (n + 1) =
        nextFromPoolAux [("p", {})] 0 ["p"] ["p"] 0 n 1 := by
      simp [nextFromPool, nextFromPoolAux, availB, statsGet]
    rw [h1]
    exact nextFromPoolAux_stuck n

/-- Claim C9: predict_hold_duration returns the default when the model is
missing or its predict call raises, and otherwise clamps the prediction
into the interval between 3 and 6 seconds. -/
theorem predict_hold_duration_spec (model : Option (Except Unit ℚ)) (default : ℚ) :
    (model = none → predict_hold_duration model default = default) ∧
    (∀ e, model = some (Except.error e) → predict_hold_duration model default = default) ∧
    (∀ v, model = some (Except.ok v) →
      predict_hold_duration model default = max 3 (min 6 v) ∧
      3 ≤ predict_hold_duration model default ∧ predict_hold_duration model default ≤ 6) := by
  refine ⟨fun h => by rw [h, predict_hold_duration],
          fun e h => by rw [h]; rfl,
          fun v h => ?_⟩
  subst h
  exact ⟨rfl, le_max_left _ _, max_le (by norm_num) ((min_le_left _ _).trans le_rfl)⟩

theorem predict_hold_duration_witness :
    3 ≤ predict_hold_duration (some (Except.ok 10)) 4 ∧
      predict_hold_duration (some (Except.ok 10)) 4 ≤ 6 :=
  ⟨((predict_hold_duration_spec (some (Except.ok 10)) 4).2.2 10 rfl).2.1,
   ((predict_hold_duration_spec (some (Except.ok 10)) 4).2.2 10 rfl).2.2⟩

theorem record_failure_scale_eq (r : ProxyRotator) (s now : ℚ) :
    (r.record_failure s now).scale = min 2 (s + 1 / 10) := by
  rw [ProxyRotator.record_failure]
  cases hpi : pyIndex (if r.mode = "residential" then r.residential else r.mobile)
      ((if r.mode = "residential" then (r.res_index : Int) else (r.mob_index : Int)) - 1) with
  | none => rfl
  | some proxy =>
    dsimp only
    split <;> rfl

theorem record_success_scale_eq (r : ProxyRotator) (s now : ℚ) :
    (r.record_success s now).scale = max 1 (s - 5 / 100) := by
  rw [ProxyRotator.record_success]
  dsimp only
  split <;> rfl

/-- Claim C5: HUMANIZATION_SCALE starts at 1.0, record_failure raises it
by 0.1 capped at 2.0, record_success lowers it by 0.05 floored at 1.0,
so it always stays within the interval between 1.0 and 2.0.  (These two
methods are the only assignments to the global besides its initializer.) -/
theorem humanization_scale_invariant :
    humanizationScaleInit = 1 ∧
    ∀ s : ℚ, 1 ≤ s → s ≤ 2 →
      ∀ (r : ProxyRotator) (now : ℚ),
        (1 ≤ (r.record_failure s now).scale ∧ (r.record_failure s now).scale ≤ 2) ∧
        (1 ≤ (r.record_success s now).scale ∧ (r.record_success s now).scale ≤ 2) := by
  refine ⟨rfl, fun s h1 h2 r now => ?_⟩
  rw [record_failure_scale_eq, record_success_scale_eq]
  refine ⟨⟨le_min (by norm_num) (by linarith), min_le_left _ _⟩,
          ⟨le_max_left _ _, max_le (by norm_num) (by linarith)⟩⟩

theorem humanization_scale_witness :
    1 ≤ ((ProxyRotator.init [] []).record_failure 1 0).scale ∧
      ((ProxyRotator.init [] []).record_failure 1 0).scale ≤ 2 :=
  (humanization_scale_invariant.2 1 le_rfl one_le_two (ProxyRotator.init [] []) 0).1

theorem get?_some_of_lt {α : Type} {l : List α} {k : Nat} (h : k < l.length) :
    ∃ x, l.get? k = some x := by
  cases hg : l.get? k with
  | some x => exact ⟨x, rfl⟩
  | none => exact absurd (List.get?_eq_none.mp hg) (by omega)

theorem pyIndex_pred_some {α : Type} {l : List α} {n : Nat} (hne : l ≠ [])
    (hn : n ≤ l.length) : ∃ x, pyIndex l ((n : Int) - 1) = some x := by
  have hp : 0 < l.length := List.length_pos.mpr hne
  rw [pyIndex]
  by_cases h0 : (n : Int) - 1 < 0
  · rw [if_pos h0]
    have hcond : (0 : Int) ≤ (n : Int) - 1 + l.length ∧ (n : Int) - 1 + l.length < l.length := by
      omega
    rw [if_pos hcond]
    exact get?_some_of_lt (by omega)
  · rw [if_neg h0]
    have hcond : (0 : Int) ≤ (n : Int) - 1 ∧ (n : Int) - 1 < l.length := by omega
    rw [if_pos hcond]
    exact get?_some_of_lt (by omega)

theorem record_success_rot_fields (r : ProxyRotator) (s n : ℚ) :
    (r.record_success s n).rot.success = r.success + 1 ∧
    (r.record_success s n).rot.failures = 0 ∧
    (r.record_success s n).rot.mode =
      (if r.mode = "mobile" ∧ 300 < n - r.last_mobile then "residential" else r.mode) := by
  refine ⟨?_, ?_, ?_⟩ <;>
  · rw [ProxyRotator.record_success]
    by_cases hc : r.mode = "mobile" ∧ 300 < n - r.last_mobile <;>
      simp only [hc, if_true, if_false] <;> split <;> simp_all

/-- Claim C8: for a rotator in mobile mode, record_success switches back
to residential exactly when more than 300 seconds have elapsed since
last_mobile; and in every mode record_success increments the success
counter and zeroes the failure counter. -/
theorem record_success_spec (r : ProxyRotator) (scale now : ℚ) (hm : r.mode = "mobile") :
    ((r.record_success scale now).rot.mode = "residential" ↔ 300 < now - r.last_mobile) ∧
    ∀ (r2 : ProxyRotator) (s2 n2 : ℚ),
      (ProxyRotator.record_success r2 s2 n2).rot.success = r2.success + 1 ∧
      (ProxyRotator.record_success r2 s2 n2).rot.failures = 0 := by
  constructor
  · rw [(record_success_rot_fields r scale now).2.2]
    by_cases hc : 300 < now - r.last_mobile
    · rw [if_pos ⟨hm, hc⟩]
      exact ⟨fun _ => hc, fun _ => rfl⟩
    · rw [if_neg (fun hco => hc hco.2), hm]
      exact ⟨fun he => absurd he (by decide), fun hcc => absurd hcc hc⟩
  · intro r2 s2 n2
    exact ⟨(record_success_rot_fields r2 s2 n2).1, (record_success_rot_fields r2 s2 n2).2.1⟩

theorem record_success_spec_witness :
    (({ ProxyRotator.init ["r"] ["m"] with mode := "mobile" } : ProxyRotator).record_success
        1 301).rot.mode = "residential" ∧
    (({ ProxyRotator.init ["r"] ["m"] with mode := "mobile" } : ProxyRotator).record_success
        1 301).rot.success =
      ({ ProxyRotator.init ["r"] ["m"] with mode := "mobile" } : ProxyRotator).success + 1 := by
  have h := record_success_spec { ProxyRotator.init ["r"] ["m"] with mode := "mobile" } 1 301 rfl
  exact ⟨h.1.mpr (by norm_num [ProxyRotator.init]), (h.2 _ 1 301).1⟩

theorem record_failure_mobile_mode (r2 : ProxyRotator) (s n : ℚ) (hm2 : r2.mode = "mobile") :
    (r2.record_failure s n).rot.mode = "mobile" := by
  rw [ProxyRotator.record_failure]
  dsimp only
  have hnr : ¬ r2.mode = "residential" := by rw [hm2]; decide
  rw [if_neg hnr, if_neg hnr]
  cases hpi : pyIndex r2.mobile ((r2.mob_index : Int) - 1) with
  | none => exact hm2
  | some proxy =>
    dsimp only
    rw [if_neg (fun hco => hnr hco.1)]
    exact hm2

theorem record_failure_res_fields (r : ProxyRotator) (s n : ℚ)
    (hm : r.mode = "residential") (hne : r.residential ≠ [])
    (hidx : r.res_index ≤ r.residential.length) :
    (r.record_failure s n).raised = false ∧
    (r.record_failure s n).rot.mode = (if 2 ≤ r.failures + 1 then "mobile" else "residential") ∧
    (r.record_failure s n).rot.failures = (if 2 ≤ r.failures + 1 then 0 else r.failures + 1) ∧
    (r.record_failure s n).rot.last_mobile =
      (if 2 ≤ r.failures + 1 then n else r.last_mobile) := by
  obtain ⟨x, hx⟩ := pyIndex_pred_some hne hidx
  rw [ProxyRotator.record_failure]
  dsimp only
  rw [if_pos hm, if_pos hm, hx]
  dsimp only
  by_cases hge : 2 ≤ r.failures + 1
  · rw [if_pos ⟨hm, hge⟩, if_pos hge, if_pos hge, if_pos hge]
    exact ⟨rfl, rfl, rfl, rfl⟩
  · rw [if_neg (fun hco => hge hco.2), if_neg hge, if_neg hge, if_neg hge]
    exact ⟨rfl, hm, rfl, rfl⟩

/-- Claim C1: while in residential mode (with its proxy list usable, so
that the statistics indexing does not raise), record_failure increments
the failure counter; when the incremented counter has reached 2 the
rotator switches to mobile mode, stores the switch time in last_mobile
and resets the counter to 0; and record_failure never moves a rotator
out of mobile mode. -/
theorem record_failure_spec (r : ProxyRotator) (scale now : ℚ)
    (hm : r.mode = "residential") (hne : r.residential ≠ [])
    (hidx : r.res_index ≤ r.residential.length) :
    (r.record_failure scale now).raised = false ∧
    (2 ≤ r.failures + 1 →
      (r.record_failure scale now).rot.mode = "mobile" ∧
      (r.record_failure scale now).rot.last_mobile = now ∧
      (r.record_failure scale now).rot.failures = 0) ∧
    (r.failures + 1 < 2 →
      (r.record_failure scale now).rot.mode = "residential" ∧
      (r.record_failure scale now).rot.failures = r.failures + 1) ∧
    (∀ (r2 : ProxyRotator) (s2 n2 : ℚ), r2.mode = "mobile" →
      (ProxyRotator.record_failure r2 s2 n2).rot.mode = "mobile") := by
  obtain ⟨h1, h2, h3, h4⟩ := record_failure_res_fields r scale now hm hne hidx
  refine ⟨h1, fun hge => ⟨?_, ?_, ?_⟩, fun hlt => ⟨?_, ?_⟩,
          fun r2 s2 n2 hm2 => record_failure_mobile_mode r2 s2 n2 hm2⟩
  · rw [h2, if_pos hge]
  · rw [h4, if_pos hge]
  · rw [h3, if_pos hge]
  · rw [h2, if_neg (by omega)]
  · rw [h3, if_neg (by omega)]

theorem record_failure_spec_witness :
    (({ ProxyRotator.init ["r1"] ["m1"] with failures := 1 } : ProxyRotator).record_failure
        1 5).rot.mode = "mobile" ∧
    (({ ProxyRotator.init ["r1"] ["m1"] with failures := 1 } : ProxyRotator).record_failure
        1 5).rot.last_mobile = 5 ∧
    (({ ProxyRotator.init ["r1"] ["m1"] with failures := 1 } : ProxyRotator).record_failure
        1 5).rot.failures = 0 :=
  (record_failure_spec { ProxyRotator.init ["r1"] ["m1"] with failures := 1 } 1 5 rfl
    (by decide) (by decide)).2.1 (by decide)

theorem availB_true {stats : List (String × ProxyStats)} {now : ℚ} {inUse : List String}
    {proxy : String} (h : availB stats now inUse proxy = true) :
    proxy ∉ inUse ∧ ∃ st, statsGet stats proxy = some st ∧ st.cooldown_until ≤ now := by
  rw [availB, Bool.and_eq_true] at h
  obtain ⟨h1, h2⟩ := h
  constructor
  · intro hmem
    simp at h1
    exact h1 hmem
  · cases hst : statsGet stats proxy with
    | none => rw [hst] at h2; simp at h2
    | some st => rw [hst] at h2; exact ⟨st, rfl, by simpa using h2⟩

theorem nextFromPoolAux_result {stats : List (String × ProxyStats)} {now : ℚ}
    {pool inUse : List String} {start : Nat} :
    ∀ {fuel idx : Nat} {res : Option String × Nat × List String},
      nextFromPoolAux stats now pool inUse start fuel idx = some res →
      (∀ p, res.1 = some p → p ∉ inUse ∧ res.2.2 = p :: inUse ∧
          ∃ st, statsGet stats p = some st ∧ st.cooldown_until ≤ now) ∧
      (res.1 = none → res.2.2 = inUse) := by
  intro fuel
  induction fuel with
  | zero => intro idx res h; simp [nextFromPoolAux] at h
  | succ n ih =>
    intro idx res h
    rw [nextFromPoolAux] at h
    split at h <;> split at h <;>
      first
        | (rename_i hav
           obtain ⟨hp, hst⟩ := availB_true hav
           rw [Option.some_inj] at h
           subst h
           exact ⟨fun p hp2 => by
               rw [Option.some_inj] at hp2
               subst hp2
               exact ⟨hp, rfl, hst⟩,
             fun hcon => by simp at hcon⟩)
        | (split at h
           · rw [Option.some_inj] at h
             subst h
             exact ⟨fun p hp2 => by simp at hp2, fun _ => rfl⟩
           · exact ih h)

theorem nextFromPool_result {stats : List (String × ProxyStats)} {now : ℚ}
    {pool inUse : List String} {idx fuel : Nat} {res : Option String × Nat × List String}
    (h : nextFromPool stats now pool inUse idx fuel = some res) :
    (∀ p, res.1 = some p → p ∉ inUse ∧ res.2.2 = p :: inUse ∧
        ∃ st, statsGet stats p = some st ∧ st.cooldown_until ≤ now) ∧
    (res.1 = none → res.2.2 = inUse) := by
  rw [nextFromPool] at h
  split at h
  · rw [Option.some_inj] at h
    subst h
    exact ⟨fun p hp2 => by simp at hp2, fun _ => rfl⟩
  · exact nextFromPoolAux_result h

theorem pool_in_use_extend {stats : List (String × ProxyStats)} {now : ℚ}
    {pool inUse : List String} {idx fuel : Nat} {po : Option String} {i2 : Nat}
    {u2 : List String}
    (h : nextFromPool stats now pool inUse idx fuel = some (po, i2, u2)) :
    inUse ⊆ u2 ∧ (inUse.Nodup → u2.Nodup) := by
  have K := nextFromPool_result h
  cases po with
  | none =>
    have e : u2 = inUse := K.2 rfl
    rw [e]
    exact ⟨List.Subset.refl _, id⟩
  | some q =>
    obtain ⟨hq1, hq2, _⟩ := K.1 q rfl
    have e : u2 = q :: inUse := hq2
    rw [e]
    exact ⟨List.subset_cons_self _ _, fun hnd => List.nodup_cons.mpr ⟨hq1, hnd⟩⟩

theorem allocate_some {m : ParallelProxyManager} {um : Bool} {now : ℚ} {fuel : Nat}
    {p t : String} {m' : ParallelProxyManager}
    (h : m.allocate um now fuel = some (some p, t, m')) :
    p ∉ m.in_use ∧ p ∈ m'.in_use ∧ m'.stats = m.stats ∧
    (∃ st, statsGet m.stats p = some st ∧ st.cooldown_until ≤ now) ∧
    (m.in_use.Nodup → m'.in_use.Nodup) := by
  rw [ParallelProxyManager.allocate] at h
  cases um
  case true =>
    rw [if_pos rfl] at h
    rcases hm1 : nextFromPool m.stats now m.mobile m.in_use m.mob_index fuel with _ |
        ⟨proxy1, idx1, inuse1⟩ <;> rw [hm1] at h
    · dsimp only at h
      exact absurd h (by simp)
    · dsimp only at h
      have K1 := nextFromPool_result hm1
      have hext1 := pool_in_use_extend hm1
      by_cases hpt : pTruthy proxy1 = true
      · rw [if_pos hpt] at h
        simp only [Option.some_inj, Prod.mk.injEq] at h
        obtain ⟨h1, _, h3⟩ := h
        obtain ⟨hp1, hp2, hp3⟩ := K1.1 p h1
        have hp2e : inuse1 = p :: m.in_use := hp2
        subst h3
        exact ⟨hp1, by dsimp only; rw [hp2e]; exact List.mem_cons_self _ _, rfl, hp3,
          fun hnd => by dsimp only; rw [hp2e]; exact List.nodup_cons.mpr ⟨hp1, hnd⟩⟩
      · rw [if_neg hpt] at h
        rcases hm2 : nextFromPool m.stats now m.residential inuse1 m.res_index fuel with _ |
            ⟨proxy2, idx2, inuse2⟩ <;> rw [hm2] at h
        · dsimp only at h
          exact absurd h (by simp)
        · dsimp only at h
          have K2 := nextFromPool_result hm2
          have hh : some (proxy2, "residential",
              ({ residential := m.residential, mobile := m.mobile, res_index := idx2,
                 mob_index := idx1, mobile_ratio := m.mobile_ratio, in_use := inuse2,
                 stats := m.stats } : ParallelProxyManager)) = some (some p, t, m') := by
            by_cases hpt2 : pTruthy proxy2 = true
            · rw [if_pos hpt2] at h; exact h
            · rw [if_neg hpt2, if_pos rfl] at h; exact h
          simp only [Option.some_inj, Prod.mk.injEq] at hh
          obtain ⟨h1, _, h3⟩ := hh
          obtain ⟨hp1, hp2, hp3⟩ := K2.1 p h1
          have hp2e : inuse2 = p :: inuse1 := hp2
          subst h3
          exact ⟨fun hmem => hp1 (hext1.1 hmem),
            by dsimp only; rw [hp2e]; exact List.mem_cons_self _ _, rfl, hp3,
            fun hnd => by dsimp only; rw [hp2e]; exact List.nodup_cons.mpr ⟨hp1, hext1.2 hnd⟩⟩
  case false =>
    rw [if_neg (by simp)] at h
    dsimp only at h
    rw [show pTruthy (none : Option String) = false from rfl, if_neg (by simp)] at h
    rcases hm2 : nextFromPool m.stats now m.residential m.in_use m.res_index fuel with _ |
        ⟨proxy2, idx2, inuse2⟩ <;> rw [hm2] at h
    · dsimp only at h
      exact absurd h (by simp)
    · dsimp only at h
      have K2 := nextFromPool_result hm2
      have hext2 := pool_in_use_extend hm2
      by_cases hpt2 : pTruthy proxy2 = true
      · rw [if_pos hpt2] at h
        simp only [Option.some_inj, Prod.mk.injEq] at h
        obtain ⟨h1, _, h3⟩ := h
        obtain ⟨hp1, hp2, hp3⟩ := K2.1 p h1
        have hp2e : inuse2 = p :: m.in_use := hp2
        subst h3
        exact ⟨hp1, by dsimp only; rw [hp2e]; exact List.mem_cons_self _ _, rfl, hp3,
          fun hnd => by dsimp only; rw [hp2e]; exact List.nodup_cons.mpr ⟨hp1, hnd⟩⟩
      · rw [if_neg hpt2, if_neg (by simp)] at h
        rcases hm3 : nextFromPool m.stats now m.mobile inuse2 m.mob_index fuel with _ |
            ⟨proxy3, idx3, inuse3⟩ <;> rw [hm3] at h
        · dsimp only at h
          exact absurd h (by simp)
        · dsimp only at h
          have K3 := nextFromPool_result hm3
          simp only [Option.some_inj, Prod.mk.injEq] at h
          obtain ⟨h1, _, h3⟩ := h
          obtain ⟨hp1, hp2, hp3⟩ := K3.1 p h1
          have hp2e : inuse3 = p :: inuse2 := hp2
          subst h3
          exact ⟨fun hmem => hp1 (hext2.1 hmem),
            by dsimp only; rw [hp2e]; exact List.mem_cons_self _ _, rfl, hp3,
            fun hnd => by dsimp only; rw [hp2e]; exact List.nodup_cons.mpr ⟨hp1, hext2.2 hnd⟩⟩

theorem release_not_mem_in_use (m : ParallelProxyManager) (p ptype : String)
    (success blocked : Bool) (duration now : ℚ) (hnd : m.in_use.Nodup) :
    p ∉ (m.release p ptype success blocked duration now).in_use := by
  rw [ParallelProxyManager.release]
  dsimp only
  by_cases hc : m.in_use.contains p
  · rw [if_pos hc]
    exact hnd.not_mem_erase
  · rw [if_neg hc]
    intro hmem
    exact hc (List.elem_iff.mpr hmem)

/-- Claim C3: a proxy returned by allocate was not in the in_use set
before the call and is in it afterwards; while a proxy sits in in_use no
allocate call can hand it out again; and release takes the proxy back
out of in_use.  Together: between an allocate and the matching release,
no other allocate returns the same proxy. -/
theorem allocate_release_exclusive (m : ParallelProxyManager) (use_mobile : Bool)
    (now : ℚ) (fuel : Nat) (p t : String) (m' : ParallelProxyManager)
    (hnd : m.in_use.Nodup)
    (h : m.allocate use_mobile now fuel = some (some p, t, m')) :
    p ∉ m.in_use ∧ p ∈ m'.in_use ∧
    (∀ (m2 : ParallelProxyManager) (um2 : Bool) (now2 : ℚ) (fuel2 : Nat)
       (t2 : String) (m2' : ParallelProxyManager), p ∈ m2.in_use →
       m2.allocate um2 now2 fuel2 ≠ some (some p, t2, m2')) ∧
    (∀ (ptype : String) (success blocked : Bool) (duration now2 : ℚ),
       p ∉ (m'.release p ptype success blocked duration now2).in_use) := by
  obtain ⟨h1, h2, _, _, h5⟩ := allocate_some h
  exact ⟨h1, h2,
    fun m2 um2 now2 fuel2 t2 m2' hmem hall => (allocate_some hall).1 hmem,
    fun ptype success blocked duration now2 =>
      release_not_mem_in_use m' p ptype success blocked duration now2 (h5 hnd)⟩

theorem allocate_release_witness :
    "r" ∉ (ParallelProxyManager.init ["r"] []).in_use ∧
    "r" ∈ ({ residential := ["r"], mobile := [], res_index := 1, mob_index := 0,
             mobile_ratio := initialMobileRatio, in_use := ["r"], stats := [("r", {})] }
           : ParallelProxyManager).in_use ∧
    "r" ∉ (({ residential := ["r"], mobile := [], res_index := 1, mob_index := 0,
              mobile_ratio := initialMobileRatio, in_use := ["r"], stats := [("r", {})] }
            : ParallelProxyManager).release "r" "residential" true false 2 3).in_use := by
  have h := allocate_release_exclusive (ParallelProxyManager.init ["r"] []) false 0 1 "r"
      "residential"
      { residential := ["r"], mobile := [], res_index := 1, mob_index := 0,
        mobile_ratio := initialMobileRatio, in_use := ["r"], stats := [("r", {})] }
      (by decide) rfl
  exact ⟨h.1, h.2.1, h.2.2.2 "residential" true false 2 3⟩

theorem statsGet_statsSet (stats : List (String × ProxyStats)) (p : String)
    (f : ProxyStats → ProxyStats) :
    statsGet (statsSet stats p f) p = (statsGet stats p).map f := by
  induction stats with
  | nil => rfl
  | cons hd tl ih =>
    rcases hd with ⟨q, st⟩
    by_cases hq : q = p <;> simp [statsGet, statsSet, hq, ih]

/-- Claim C4: release appends the duration to the released proxy's times,
counts the success or the failure (resetting respectively bumping the
fail streak), counts a block with an extra streak bump, and when the
resulting streak has reached 3 it sets a cooldown 120 seconds into the
future and resets the streak; allocate only returns proxies whose
cooldown_until has passed. -/
theorem release_stats_spec (m : ParallelProxyManager) (p t : String)
    (success blocked : Bool) (duration now : ℚ) (st : ProxyStats)
    (hst : statsGet m.stats p = some st) :
    statsGet (m.release p t success blocked duration now).stats p = some
      { times := st.times ++ [duration]
      , success := if success then st.success + 1 else st.success
      , failure := if success then st.failure else st.failure + 1
      , blocks := if blocked then st.blocks + 1 else st.blocks
      , fail_streak :=
          if 3 ≤ (if success then 0 else st.fail_streak + 1) + (if blocked then 1 else 0)
          then 0 else (if success then 0 else st.fail_streak + 1) + (if blocked then 1 else 0)
      , cooldown_until :=
          if 3 ≤ (if success then 0 else st.fail_streak + 1) + (if blocked then 1 else 0)
          then now + 120 else st.cooldown_until } ∧
    (∀ (m2 : ParallelProxyManager) (um : Bool) (now2 : ℚ) (fuel : Nat) (p2 t2 : String)
       (m2' : ParallelProxyManager),
       m2.allocate um now2 fuel = some (some p2, t2, m2') →
       ∃ st2, statsGet m2.stats p2 = some st2 ∧ st2.cooldown_until ≤ now2) := by
  constructor
  · rw [ParallelProxyManager.release]
    dsimp only
    rw [hst]
    dsimp only
    rw [statsGet_statsSet, hst]
    dsimp only [Option.map]
    cases success <;> cases blocked <;> simp <;> split_ifs <;> rfl
  · exact fun m2 um now2 fuel p2 t2 m2' hall => (allocate_some hall).2.2.2.1

theorem release_stats_witness :
    statsGet ((ParallelProxyManager.init ["r"] []).release "r" "residential" false true
        7 0).stats "r" =
      some { times := [7], success := 0, failure := 1, blocks := 1,
             cooldown_until := 0, fail_streak := 2 } := by
  have h := (release_stats_spec (ParallelProxyManager.init ["r"] []) "r" "residential"
      false true 7 0 {} (by decide)).1
  simpa using h

theorem normalizeChars_digit_count (cs : List Char)
    (h10 : (cs.filter Char.isDigit).length = 10) :
    ((normalizeChars cs).filter Char.isDigit).length = 11 := by
  rw [normalizeChars]
  rw [if_pos h10]
  have hsub : ∀ l : List Char, l ⊆ cs.filter Char.isDigit → l.filter Char.isDigit = l :=
    fun l hl => List.filter_eq_self.mpr fun c hc => List.of_mem_filter (hl hc)
  rw [List.filter_append, List.filter_append, List.filter_append, List.filter_append,
      List.filter_append]
  rw [hsub _ (List.take_subset _ _),
      hsub _ (List.Subset.trans (List.take_subset _ _) (List.drop_subset _ _)),
      hsub _ (List.drop_subset _ _)]
  simp [h10]

/-- Claim C7: _normalize_phone maps a string with exactly 10 digits to
the canonical +1 (AAA) BBB-CCCC form built from its first three, next
three and last four digits (a form that itself has 11 digits), returns
every other string unchanged, and therefore leaves its input unchanged
exactly when the input does not contain exactly 10 digits. -/
theorem normalize_phone_spec (s : String) :
    ((s.data.filter Char.isDigit).length = 10 →
      normalize_phone s = String.mk
        (['+', '1', ' ', '('] ++ (s.data.filter Char.isDigit).take 3 ++ [')', ' '] ++
          ((s.data.filter Char.isDigit).drop 3).take 3 ++ ['-'] ++
          (s.data.filter Char.isDigit).drop 6) ∧
      ((normalize_phone s).data.filter Char.isDigit).length = 11) ∧
    ((s.data.filter Char.isDigit).length ≠ 10 → normalize_phone s = s) ∧
    (normalize_phone s = s ↔ (s.data.filter Char.isDigit).length ≠ 10) := by
  have hid : (normalize_phone s).data = normalizeChars s.data := rfl
  have hunch : (s.data.filter Char.isDigit).length ≠ 10 → normalize_phone s = s := by
    intro hne
    rw [normalize_phone, normalizeChars]
    rw [if_neg hne]
  refine ⟨fun h10 => ⟨?_, ?_⟩, hunch, ⟨fun heq h10 => ?_, hunch⟩⟩
  · rw [normalize_phone, normalizeChars]
    rw [if_pos h10]
  · rw [hid]
    exact normalizeChars_digit_count s.data h10
  · have h11 := normalizeChars_digit_count s.data h10
    rw [← hid, heq] at h11
    omega

theorem normalize_phone_spec_witness :
    normalize_phone "123-456-7890" = "+1 (123) 456-7890" ∧
      normalize_phone "123-456-7890" ≠ "123-456-7890" ∧
      normalize_phone "+1 (123) 456-7890" = "+1 (123) 456-7890" := by
  refine ⟨?_, ?_, ?_⟩
  · exact (((normalize_phone_spec "123-456-7890").1 (by decide)).1).trans (by decide)
  · intro heq
    exact ((normalize_phone_spec "123-456-7890").2.2.mp heq) (by decide)
  · exact (normalize_phone_spec "+1 (123) 456-7890").2.1 (by decide)

theorem addPhone_mem_iff (phones : List String) (m q : String) :
    q ∈ addPhone phones m ↔ q ∈ phones ∨ q = normalize_phone m := by
  rw [addPhone]
  split_ifs with hp
  · constructor
    · exact fun h => Or.inl h
    · rintro (h | rfl)
      · exact h
      · exact hp
  · simp [List.mem_append]

theorem addPhone_nodup {phones : List String} (h : phones.Nodup) (m : String) :
    (addPhone phones m).Nodup := by
  rw [addPhone]
  split_ifs with hp
  · exact h
  · simp [List.nodup_append, h, hp]

theorem addPhone_subset (phones : List String) (m : String) : phones ⊆ addPhone phones m := by
  rw [addPhone]
  split_ifs
  · exact List.Subset.refl _
  · exact List.subset_append_left _ _

theorem addPhone_mem_self (phones : List String) (m : String) :
    normalize_phone m ∈ addPhone phones m := by
  rw [addPhone]
  split_ifs with hp
  · exact hp
  · exact List.mem_append_right _ (List.mem_singleton_self _)

theorem foldl_addPhone_nodup : ∀ (l acc : List String), acc.Nodup →
    (l.foldl addPhone acc).Nodup
  | [], _, h => h
  | m :: l, acc, h => foldl_addPhone_nodup l (addPhone acc m) (addPhone_nodup h m)

theorem foldl_addPhone_subset : ∀ (l acc : List String), acc ⊆ l.foldl addPhone acc
  | [], _ => List.Subset.refl _
  | m :: l, acc => List.Subset.trans (addPhone_subset acc m) (foldl_addPhone_subset l _)

theorem foldl_addPhone_mem_source : ∀ (l acc : List String), ∀ q ∈ l.foldl addPhone acc,
    q ∈ acc ∨ ∃ m ∈ l, q = normalize_phone m
  | [], _, _, hq => Or.inl hq
  | m :: l, acc, q, hq => by
    rcases foldl_addPhone_mem_source l (addPhone acc m) q hq with h | ⟨m2, hm2, he⟩
    · rcases (addPhone_mem_iff acc m q).mp h with h2 | h2
      · exact Or.inl h2
      · exact Or.inr ⟨m, List.mem_cons_self _ _, h2⟩
    · exact Or.inr ⟨m2, List.mem_cons_of_mem _ hm2, he⟩

theorem foldl_addPhone_mem_target : ∀ (l acc : List String) (m : String), m ∈ l →
    normalize_phone m ∈ l.foldl addPhone acc
  | [], _, m, hm => absurd hm (by simp)
  | m0 :: l, acc, m, hm => by
    rcases List.mem_cons.mp hm with rfl | hm2
    · exact foldl_addPhone_subset l _ (addPhone_mem_self acc m)
    · exact foldl_addPhone_mem_target l (addPhone acc m0) m hm2

/-- Claim C10: _parse_phones returns a duplicate-free list; each of its
elements is _normalize_phone of some PHONE_RE match of the text; every
match contributes its normalized form (two matches with the same
normalized form appear once); and a text without matches, for instance
the empty string, yields the empty list. -/
theorem parse_phones_spec (t : String) :
    (parse_phones t).Nodup ∧
    (∀ q ∈ parse_phones t, ∃ m ∈ phoneFindall t, q = normalize_phone m) ∧
    (∀ m ∈ phoneFindall t, normalize_phone m ∈ parse_phones t) ∧
    (phoneFindall t = [] → parse_phones t = []) := by
  refine ⟨foldl_addPhone_nodup _ _ List.nodup_nil, fun q hq => ?_,
    fun m hm => foldl_addPhone_mem_target _ _ m hm,
    fun he => by rw [parse_phones, he]; rfl⟩
  rcases foldl_addPhone_mem_source _ _ q hq with h | h
  · simp at h
  · exact h

theorem parse_phones_spec_witness :
    (parse_phones "(123) 456-7890 or 123.456.7890").Nodup ∧
      normalize_phone "123.456.7890" ∈ parse_phones "(123) 456-7890 or 123.456.7890" ∧
      parse_phones "" = [] :=
  ⟨(parse_phones_spec "(123) 456-7890 or 123.456.7890").1,
   (parse_phones_spec "(123) 456-7890 or 123.456.7890").2.2.1 "123.456.7890" (by decide),
   (parse_phones_spec "").2.2.2 (by decide)⟩

/-- A results chunk that some worker's script can produce: the res of a
successful attempt of one of the scripts. -/
def GoodChunk (scripts : List (List (Bool × List Nat))) (c : List Nat) : Prop :=
  ∃ sc ∈ scripts, (true, c) ∈ sc

/-- An attempt drawn from one of the scripts. -/
def GoodAttempt (scripts : List (List (Bool × List Nat))) (a : Bool × List Nat) : Prop :=
  ∃ sc ∈ scripts, a ∈ sc

/-- Worker invariant: all remaining attempts, and the attempt currently
held at pc = got, come from the given scripts. -/
def WorkerOK (scripts : List (List (Bool × List Nat))) (w : WorkerSt) : Prop :=
  (∀ a ∈ w.script, GoodAttempt scripts a) ∧
  ∀ b res, w.pc = WPC.got b res → GoodAttempt scripts (b, res)

/-- Shared-state invariant: the results list is the concatenation of
chunks contributed by successful attempts. -/
def SharedOK (scripts : List (List (Bool × List Nat))) (s : Shared) : Prop :=
  ∃ chunks : List (List Nat), s.results = chunks.flatten ∧ ∀ c ∈ chunks, GoodChunk scripts c

theorem stepWorker_ok {scripts : List (List (Bool × List Nat))} {s : Shared} {w : WorkerSt}
    (hw : WorkerOK scripts w) (hs : SharedOK scripts s) :
    WorkerOK scripts (stepWorker s w).2 ∧ SharedOK scripts (stepWorker s w).1 := by
  obtain ⟨hw1, hw2⟩ := hw
  obtain ⟨wsc, wpc⟩ := w
  cases wpc with
  | checking =>
    rw [stepWorker]
    dsimp only
    by_cases hstop : s.stop
    · rw [if_pos hstop]
      exact ⟨⟨hw1, fun b res hco => by simp at hco⟩, hs⟩
    · rw [if_neg hstop]
      cases wsc with
      | nil => exact ⟨⟨hw1, fun b res hco => by simp at hco⟩, hs⟩
      | cons a rest =>
        rcases a with ⟨b0, res0⟩
        dsimp only
        refine ⟨⟨fun a ha => hw1 a (List.mem_cons_of_mem _ ha), fun b res hco => ?_⟩, hs⟩
        simp only at hco
        simp only [WPC.got.injEq] at hco
        obtain ⟨hb, hres⟩ := hco
        subst hb
        subst hres
        exact hw1 (b0, res0) (List.mem_cons_self _ _)
  | got b res =>
    rw [stepWorker]
    dsimp only
    cases b with
    | true =>
      rw [if_pos rfl]
      obtain ⟨chunks, hres, hgood⟩ := hs
      refine ⟨⟨hw1, fun b2 res2 hco => by simp at hco⟩,
        ⟨chunks ++ [res], ?_, fun c hc => ?_⟩⟩
      · dsimp only
        rw [hres]
        simp
      · rcases List.mem_append.mp hc with h | h
        · exact hgood c h
        · rw [List.mem_singleton.mp h]
          exact hw2 true res rfl
    | false =>
      rw [if_neg (by simp)]
      exact ⟨⟨hw1, fun b2 res2 hco => by simp at hco⟩, hs⟩
  | extended =>
    rw [stepWorker]
    dsimp only
    obtain ⟨chunks, hres, hgood⟩ := hs
    exact ⟨⟨hw1, fun b2 res2 hco => by simp at hco⟩, ⟨chunks, hres, hgood⟩⟩
  | done =>
    rw [stepWorker]
    dsimp only
    exact ⟨⟨hw1, hw2⟩, hs⟩

theorem runSched_ok {scripts : List (List (Bool × List Nat))} :
    ∀ (sched : List Nat) (ws : List WorkerSt) (s : Shared),
      (∀ w ∈ ws, WorkerOK scripts w) → SharedOK scripts s →
      SharedOK scripts (runSched ws s sched).1 := by
  intro sched
  induction sched with
  | nil => intro ws s _ hs; exact hs
  | cons i rest ih =>
    intro ws s hws hs
    rw [runSched]
    cases hg : ws.get? i with
    | none => exact ih ws s hws hs
    | some w =>
      have hw := hws w (List.get?_mem hg)
      have hstep := stepWorker_ok hw hs
      refine ih _ _ (fun w2 hw2 => ?_) hstep.2
      rcases List.mem_or_eq_of_mem_set hw2 with h | h
      · exact hws w2 h
      · rw [h]; exact hstep.1

/-- Claim C6 counterexample: it is not the case that run_parallel always
returns the results of exactly one successful attempt (or an empty
list).  With two workers whose attempts both succeed, the interleaving
in which both workers pass the stop check before either commits makes
both append their results: the function returns the concatenation of
two attempts, which equals no single attempt and is not empty. -/
theorem run_parallel_not_single_success :
    ¬ ∀ (scripts : List (List (Bool × List Nat))) (sched : List Nat),
        (runParallelModel scripts sched).1.results = [] ∨
        ∃ sc ∈ scripts, (true, (runParallelModel scripts sched).1.results) ∈ sc := by
  intro h
  have h2 := h [[(true, [1])], [(true, [2])]] [0, 1, 0, 0, 1, 1]
  revert h2
  decide

/-- Claim C6 (amended): a worker that observes the stop event at its
loop head exits without touching the shared state; a successful attempt
appends its results (and the worker then sets the stop event); the final
results list is a concatenation of chunks, each of which is the res of a
successful attempt of some worker - possibly more than one chunk when
several workers succeed concurrently - and it is empty when no script
contains a successful attempt. -/
theorem run_parallel_spec (scripts : List (List (Bool × List Nat))) (sched : List Nat) :
    (∀ (s : Shared) (w : WorkerSt), w.pc = WPC.checking → s.stop = true →
        stepWorker s w = (s, { w with pc := WPC.done })) ∧
    (∃ chunks : List (List Nat),
        (runParallelModel scripts sched).1.results = chunks.flatten ∧
        ∀ c ∈ chunks, ∃ sc ∈ scripts, (true, c) ∈ sc) ∧
    ((∀ sc ∈ scripts, ∀ a ∈ sc, a.1 = false) →
        (runParallelModel scripts sched).1.results = []) := by
  have hmain : SharedOK scripts (runParallelModel scripts sched).1 := by
    rw [runParallelModel]
    refine runSched_ok sched _ _ (fun w hw => ?_) ⟨[], rfl, fun c hc => by simp at hc⟩
    obtain ⟨sc, hsc, rfl⟩ := List.mem_map.mp hw
    exact ⟨fun a ha => ⟨sc, hsc, ha⟩, fun b res hco => by simp at hco⟩
  obtain ⟨chunks, hres, hgood⟩ := hmain
  refine ⟨fun s w hpc hstop => ?_, ⟨chunks, hres, hgood⟩, fun hfalse => ?_⟩
  · obtain ⟨wsc, wpc⟩ := w
    simp only at hpc
    subst hpc
    rw [stepWorker]
    dsimp only
    rw [if_pos hstop]
  · have hnil : chunks = [] := by
      rw [List.eq_nil_iff_forall_not_mem]
      intro c hc
      obtain ⟨sc, hsc, hmem⟩ := hgood c hc
      exact absurd (hfalse sc hsc (true, c) hmem) (by simp)
    rw [hres, hnil]
    rfl

theorem run_parallel_spec_witness :
    (runParallelModel [[(false, [5])]] [0, 0, 0]).1.results = [] :=
  (run_parallel_spec [[(false, [5])]] [0, 0, 0]).2.2 (by decide)
